import Mathlib

/-!
# json-zen: the highlighter and the command layer of `script.js`

A shallow embedding of `src/script.js`.

* JavaScript strings are lists of characters. The script's patterns have no `u`
  flag and work on UTF-16 code units; every class they use treats the two halves
  of a surrogate pair alike (both outside `\s`, `\w`, `\d` and `[a-zA-Z0-9]`,
  both inside `[^u]` and `[^\\"]`), and no match can start or end between the
  halves, so matching character by character gives the same matches.
* Regular expressions are values of `Re`, run by a backtracking matcher `Re.run`
  that lists the ways a pattern can match at a position in the order in which
  the ECMAScript matcher explores them; the match the engine reports is the
  first one (`Re.exec`).
* `String.prototype.replace` with a global pattern is `replaceAll`,
  `RegExp.prototype.test` is `Re.test`, `String.prototype.trim` is `trim`.
* The page (the three DOM elements the script touches) is the record `Page`;
  every function of the script that touches the DOM is a function on `Page`.
* `JSON.parse` and `JSON.stringify` are platform built-ins, not code of the
  repository: they are the parameter `Builtins`.
-/

namespace JsonZen

/-! ## Regular expressions -/

/-- A matcher position: the character just before the cursor (`none` at the
start of the text) and the text from the cursor on. -/
structure Pos where
  prev : Option Char
  rest : List Char
deriving DecidableEq, Repr

/-- The regular-expression constructs used by `script.js`:
a character class, the assertions `^`, `$` and `\b`, the empty pattern,
concatenation, ordered alternation `|` and the greedy star. -/
inductive Re where
  | chr (p : Char → Bool)
  | bos
  | eos
  | wordB
  | eps
  | seq (a b : Re)
  | alt (a b : Re)
  | star (a : Re)

/-- The class `\w` of ECMAScript (without the `u` and `i` flags): `[A-Za-z0-9_]`. -/
def isWordChar (c : Char) : Bool :=
  c.isAlphanum || c == '_'

/-- Whether the character at one side of the cursor is a word character; the
outside of the text is not. -/
def isWordAt : Option Char → Bool
  | none => false
  | some c => isWordChar c

/-- The greedy repetition of a matcher `f`: first one more iteration (an
iteration that consumes nothing is rejected, as in ECMAScript's RepeatMatcher),
then stopping here. The first argument bounds the number of iterations; an
iteration consumes a character, so the length of the remaining text is enough. -/
def starLoop (f : Pos → List Pos) : Nat → Pos → List Pos
  | 0, x => [x]
  | n + 1, x =>
    ((f x).filter (fun y => decide (y.rest.length < x.rest.length))).flatMap (starLoop f n) ++ [x]

/-- All the ways the pattern matches at a position, as the positions after the
match, in the order of the backtracking search. -/
def Re.run : Re → Pos → List Pos
  | .chr p, x =>
    match x.rest with
    | [] => []
    | c :: cs => if p c then [⟨some c, cs⟩] else []
  | .bos, x => if x.prev.isNone then [x] else []
  | .eos, x => if x.rest.isEmpty then [x] else []
  | .wordB, x => if isWordAt x.prev != isWordAt x.rest.head? then [x] else []
  | .eps, x => [x]
  | .seq a b, x => (a.run x).flatMap b.run
  | .alt a b, x => a.run x ++ b.run x
  | .star a, x => starLoop a.run x.rest.length x

/-- The pattern `a?` (greedy). -/
def Re.opt (a : Re) : Re := .alt a .eps

/-- The pattern `a+` (greedy). -/
def Re.plus (a : Re) : Re := .seq a (.star a)

/-- The pattern that matches a fixed text. -/
def Re.lit : List Char → Re
  | [] => .eps
  | c :: cs => .seq (.chr (· == c)) (Re.lit cs)

/-- The match the engine reports at a position: the first of the search. -/
def Re.exec (re : Re) (x : Pos) : Option Pos := (re.run x).head?

/-- The text between two positions of the same text. -/
def consumed (x y : Pos) : List Char := x.rest.take (x.rest.length - y.rest.length)

/-- The loop of `String.prototype.replace` for a global pattern and a
replacement function `cb`: at the cursor, a match is replaced by `cb` of the
matched text and the scan goes on after it (one character further when the match
is empty); without a match the character is copied. The first argument bounds
the number of steps. -/
def replaceLoop (re : Re) (cb : List Char → List Char) : Nat → Pos → List Char
  | 0, x => x.rest
  | n + 1, x =>
    match re.exec x with
    | some y =>
      if y.rest.length < x.rest.length then
        cb (consumed x y) ++ replaceLoop re cb n y
      else
        match x.rest with
        | [] => cb []
        | c :: cs => cb [] ++ c :: replaceLoop re cb n ⟨some c, cs⟩
    | none =>
      match x.rest with
      | [] => []
      | c :: cs => c :: replaceLoop re cb n ⟨some c, cs⟩

/-- The call `s.replace(re, cb)` for a pattern with the `g` flag. Every step of
the loop but the last consumes a character, so `s.length + 1` steps are enough. -/
def replaceAll (re : Re) (cb : List Char → List Char) (s : List Char) : List Char :=
  replaceLoop re cb (s.length + 1) ⟨none, s⟩

/-- Whether the pattern matches at the cursor or at a later position. -/
def searchFrom (re : Re) : Option Char → List Char → Bool
  | p, [] => !(re.run ⟨p, []⟩).isEmpty
  | p, c :: cs => !(re.run ⟨p, c :: cs⟩).isEmpty || searchFrom re (some c) cs

/-- The call `re.test(s)` for a pattern without the `g` flag. -/
def Re.test (re : Re) (s : List Char) : Bool := searchFrom re none s

/-- The class `\s` of ECMAScript, which is also what `trim` removes: white space
and line terminators. -/
def isJsSpace (c : Char) : Bool :=
  c == '\t' || c == '\n' || c.toNat == 0x0B || c.toNat == 0x0C || c == '\r' || c == ' ' ||
  c.toNat == 0xA0 || c.toNat == 0x1680 || (0x2000 ≤ c.toNat && c.toNat ≤ 0x200A) ||
  c.toNat == 0x2028 || c.toNat == 0x2029 || c.toNat == 0x202F || c.toNat == 0x205F ||
  c.toNat == 0x3000 || c.toNat == 0xFEFF

/-- The call `s.trim()`. -/
def trim (s : List Char) : List Char :=
  ((s.dropWhile isJsSpace).reverse.dropWhile isJsSpace).reverse

/-! ## `syntaxHighlight` -/

/-- The class `\d`. -/
def reDigit : Re := .chr Char.isDigit

/-- The class `[a-zA-Z0-9]`. -/
def reAlnum : Re := .chr Char.isAlphanum

/-- One element of a string body: `\\u[a-zA-Z0-9]{4}|\\[^u]|[^\\"]`. -/
def reStringBody : Re :=
  .alt (.seq (.chr (· == '\\')) (.seq (.chr (· == 'u'))
          (.seq reAlnum (.seq reAlnum (.seq reAlnum reAlnum)))))
    (.alt (.seq (.chr (· == '\\')) (.chr (· != 'u')))
      (.chr (fun c => c != '\\' && c != '"')))

/-- The first alternative of the token pattern:
`"(\\u[a-zA-Z0-9]{4}|\\[^u]|[^\\"])*"(\s*:)?`. -/
def reString : Re :=
  .seq (.chr (· == '"')) (.seq (.star reStringBody) (.seq (.chr (· == '"'))
    (Re.opt (.seq (.star (.chr isJsSpace)) (.chr (· == ':'))))))

/-- The second alternative: `\b(true|false|null)\b`. -/
def reKeyword : Re :=
  .seq .wordB (.seq
    (.alt (Re.lit "true".toList) (.alt (Re.lit "false".toList) (Re.lit "null".toList))) .wordB)

/-- The third alternative: `-?\d+(?:\.\d*)?(?:[eE][+\-]?\d+)?`. -/
def reNumber : Re :=
  .seq (Re.opt (.chr (· == '-'))) (.seq (Re.plus reDigit)
    (.seq (Re.opt (.seq (.chr (· == '.')) (.star reDigit)))
      (Re.opt (.seq (.chr (fun c => c == 'e' || c == 'E'))
        (.seq (Re.opt (.chr (fun c => c == '+' || c == '-'))) (Re.plus reDigit))))))

/-- The token pattern of `syntaxHighlight` (line 40 of `script.js`). -/
def reToken : Re := .alt reString (.alt reKeyword reNumber)

/-- The class name the replacement function picks for a match: the tests
`/^"/`, `/:$/`, `/true|false/` and `/null/`, with `json-number` as default. -/
def classify (m : List Char) : List Char :=
  if Re.test (.seq .bos (.chr (· == '"'))) m then
    if Re.test (.seq (.chr (· == ':')) .eos) m then "json-key".toList
    else "json-string".toList
  else if Re.test (.alt (Re.lit "true".toList) (Re.lit "false".toList)) m then
    "json-boolean".toList
  else if Re.test (Re.lit "null".toList) m then "json-null".toList
  else "json-number".toList

/-- The replacement function: the match wrapped in a span of its class. -/
def wrapSpan (m : List Char) : List Char :=
  "<span class=\"".toList ++ classify m ++ "\">".toList ++ m ++ "</span>".toList

/-- The first line of `syntaxHighlight`: the three global replacements of `&`,
`<` and `>`, in this order. -/
def escapeHtml (json : List Char) : List Char :=
  replaceAll (.chr (· == '>')) (fun _ => "&gt;".toList)
    (replaceAll (.chr (· == '<')) (fun _ => "&lt;".toList)
      (replaceAll (.chr (· == '&')) (fun _ => "&amp;".toList) json))

/-- The function `syntaxHighlight` of `script.js`. -/
def syntaxHighlight (json : List Char) : List Char :=
  replaceAll reToken wrapSpan (escapeHtml json)

/-! ## The page and the commands -/

/-- What the script reads and writes of the page: `jsonInput.value` and
`jsonInput.classList`, `jsonOutput.innerHTML`, `errorMessage.textContent` and
`errorMessage.classList`. -/
structure Page where
  inputValue : List Char
  inputClasses : List String
  outputHTML : List Char
  errorText : List Char
  errorClasses : List String
deriving DecidableEq, Repr

/-- The call `classList.add(t)`. -/
def classAdd (t : String) (l : List String) : List String :=
  if t ∈ l then l else l ++ [t]

/-- The call `classList.remove(t)`. -/
def classRemove (t : String) (l : List String) : List String :=
  l.filter (fun u => u != t)

/-- The function `showError`. -/
def showError (message : List Char) (s : Page) : Page :=
  { s with
    errorText := message
    errorClasses := classAdd "show" s.errorClasses
    inputClasses := classAdd "error" s.inputClasses }

/-- The function `hideError`. -/
def hideError (s : Page) : Page :=
  { s with
    errorClasses := classRemove "show" s.errorClasses
    inputClasses := classRemove "error" s.inputClasses }

/-- The built-ins `JSON.parse` and `JSON.stringify` over the values `J` that
`JSON.parse` produces. `parse` returns the value or the message of the
`SyntaxError` it throws; `stringify v n` is `JSON.stringify(v, null, n)`, and
`stringify v 0` is `JSON.stringify(v)`. `JSON.parse` rejects the empty text. -/
structure Builtins (J : Type) where
  parse : List Char → Except (List Char) J
  stringify : J → Nat → List Char
  parse_empty : ∀ v, parse [] ≠ .ok v

/-- The function `parseJSON`: its result and the page it leaves. -/
def parseJSON {J : Type} (B : Builtins J) (input : List Char) (s : Page) :
    Except (List Char) J × Page :=
  match B.parse input with
  | .ok parsed => (.ok parsed, hideError s)
  | .error message => (.error message, showError ("Invalid JSON: ".toList ++ message) s)

/-- The function `prettifyJSON`. -/
def prettifyJSON {J : Type} (B : Builtins J) (s : Page) : Page :=
  let input := trim s.inputValue
  if input.isEmpty then
    showError "Please enter some JSON to prettify".toList s
  else
    match parseJSON B input s with
    | (.ok data, s1) => { s1 with outputHTML := syntaxHighlight (B.stringify data 2) }
    | (.error _, s1) => s1

/-- The function `minifyJSON`. -/
def minifyJSON {J : Type} (B : Builtins J) (s : Page) : Page :=
  let input := trim s.inputValue
  if input.isEmpty then
    showError "Please enter some JSON to minify".toList s
  else
    match parseJSON B input s with
    | (.ok data, s1) => { s1 with outputHTML := syntaxHighlight (B.stringify data 0) }
    | (.error _, s1) => s1

/-- The success marker that `validateJSON` writes before the highlighted text. -/
def validMarker : List Char :=
  ("<span class=\"json-boolean\" style=\"color: var(--success); font-size: 1.2rem;\">" ++
    "✓ Valid JSON</span>\n\n").toList

/-- The function `validateJSON`. -/
def validateJSON {J : Type} (B : Builtins J) (s : Page) : Page :=
  let input := trim s.inputValue
  if input.isEmpty then
    showError "Please enter some JSON to validate".toList s
  else
    match parseJSON B input s with
    | (.ok data, s1) =>
      { s1 with outputHTML := validMarker ++ syntaxHighlight (B.stringify data 2) }
    | (.error _, s1) => s1

/-- The function `clearInput`. -/
def clearInput (s : Page) : Page :=
  hideError { s with inputValue := [], outputHTML := [] }

/-! ## Vocabulary of the specification -/

/-- A syntactic check that a pattern cannot match the empty text: `false` only
when every match consumes a character. -/
def Re.nullable : Re → Bool
  | .chr _ => false
  | .bos => true
  | .eos => true
  | .wordB => true
  | .eps => true
  | .seq a b => a.nullable && b.nullable
  | .alt a b => a.nullable || b.nullable
  | .star _ => true

/-- The escaped form of one character: the entity for `&`, `<` and `>`, the
character itself otherwise. -/
def escapeChar (c : Char) : List Char :=
  if c = '&' then "&amp;".toList
  else if c = '<' then "&lt;".toList
  else if c = '>' then "&gt;".toList
  else [c]

/-- The five recognised class names. -/
def spanClasses : List (List Char) :=
  ["json-key".toList, "json-string".toList, "json-number".toList, "json-boolean".toList,
    "json-null".toList]

/-- The opening tag of a span of class `cls`. -/
def openTag (cls : List Char) : List Char :=
  "<span class=\"".toList ++ cls ++ "\">".toList

/-- The closing tag of a span. -/
def closeTag : List Char := "</span>".toList

/-- A text all of whose `<` and `>` belong to opening tags of the five classes
or to closing tags: it is made of such tags and of characters other than `<`
and `>`. -/
inductive OnlySpanAngles : List Char → Prop
  | nil : OnlySpanAngles []
  | text (c : Char) (s : List Char) : c ≠ '<' → c ≠ '>' → OnlySpanAngles s →
      OnlySpanAngles (c :: s)
  | opening (cls s : List Char) : cls ∈ spanClasses → OnlySpanAngles s →
      OnlySpanAngles (openTag cls ++ s)
  | closing (s : List Char) : OnlySpanAngles s → OnlySpanAngles (closeTag ++ s)

/-- The relation `SpansOver plain marked`: `marked` is `plain` in which some
disjoint, non-empty stretches `m`, none inside another, have been wrapped in
an opening tag of one of the five classes and a closing tag; all the other
characters are unchanged. -/
inductive SpansOver : List Char → List Char → Prop
  | nil : SpansOver [] []
  | text (c : Char) (p o : List Char) : SpansOver p o → SpansOver (c :: p) (c :: o)
  | span (cls m p o : List Char) : cls ∈ spanClasses → m ≠ [] → SpansOver p o →
      SpansOver (m ++ p) (openTag cls ++ m ++ closeTag ++ o)

/-- Deleting the tags: with the flag set the cursor is inside a tag, which ends
at the next `>`. -/
def stripTagsAux : Bool → List Char → List Char
  | _, [] => []
  | true, c :: cs => if c = '>' then stripTagsAux false cs else stripTagsAux true cs
  | false, c :: cs => if c = '<' then stripTagsAux true cs else c :: stripTagsAux false cs

/-- The text with every tag `<...>` deleted. -/
def stripTags (s : List Char) : List Char := stripTagsAux false s

/-- A hexadecimal digit. -/
def isHexDigit (c : Char) : Bool :=
  c.isDigit || (c.val ≥ 97 && c.val ≤ 102) || (c.val ≥ 65 && c.val ≤ 70)

/-- The body of a well-formed string literal: characters other than the double
quote and the backslash, two-character backslash escapes (a backslash and a
character other than `u`), and `\uXXXX` escapes with four hexadecimal digits. -/
inductive StringBody : List Char → Prop
  | nil : StringBody []
  | plain (c : Char) (r : List Char) : c ≠ '"' → c ≠ '\\' → StringBody r →
      StringBody (c :: r)
  | escape (c : Char) (r : List Char) : c ≠ 'u' → StringBody r →
      StringBody ('\\' :: c :: r)
  | unicode (a b c d : Char) (r : List Char) : isHexDigit a = true → isHexDigit b = true →
      isHexDigit c = true → isHexDigit d = true → StringBody r →
      StringBody ('\\' :: 'u' :: a :: b :: c :: d :: r)

/-- The string literal with the given body. -/
def stringLiteral (body : List Char) : List Char := '"' :: body ++ ['"']

/-- A stand-in for the built-ins in the examples: the text `{"x":1}` parses, to
a value whose 2-space form is `{\n  "x": 1\n}` and whose compact form is
`{"x":1}`; the text `{"a":}` is rejected with the diagnostic of V8; every other
text is rejected with the diagnostic V8 gives for the empty text. -/
def sampleBuiltins : Builtins Unit where
  parse t :=
    if t = "\x7b\"x\":1\x7d".toList then .ok ()
    else if t = "\x7b\"a\":\x7d".toList then
      .error "Unexpected token \x7d in JSON at position 5".toList
    else .error "Unexpected end of JSON input".toList
  stringify _ n :=
    if n = 0 then "\x7b\"x\":1\x7d".toList else "\x7b\n  \"x\": 1\n\x7d".toList
  parse_empty := by intro v h; simp at h

/-- A page as it is first loaded, with the given text typed in. -/
def freshPage (text : List Char) : Page :=
  { inputValue := text, inputClasses := [], outputHTML := [], errorText := [],
    errorClasses := [] }

/-! ## The matcher: general facts -/

theorem filter_shorter_nil (l : List Pos) (x : Pos) (h : x.rest.length = 0) :
    l.filter (fun y => decide (y.rest.length < x.rest.length)) = [] := by
  rw [List.filter_eq_nil_iff]
  intro y _
  simp [h]

theorem flatMap_agree {α β : Type} (l : List α) (f g : α → List β)
    (h : ∀ a ∈ l, f a = g a) : l.flatMap f = l.flatMap g := by
  induction l with
  | nil => rfl
  | cons a l ih =>
    simp only [List.flatMap_cons]
    rw [h a (List.mem_cons_self _ _), ih (fun b hb => h b (List.mem_cons_of_mem _ hb))]

/-- The bound of `starLoop` is enough as soon as it is the length of the
remaining text: a larger bound gives the same matches. -/
theorem starLoop_fuel (f : Pos → List Pos) :
    ∀ (n m : Nat) (x : Pos), x.rest.length ≤ n → x.rest.length ≤ m →
      starLoop f n x = starLoop f m x := by
  intro n
  induction n with
  | zero =>
    intro m x hn _
    have h0 : x.rest.length = 0 := Nat.le_zero.mp hn
    cases m with
    | zero => rfl
    | succ m => simp [starLoop, filter_shorter_nil _ x h0]
  | succ n ih =>
    intro m x hn hm
    cases m with
    | zero =>
      have h0 : x.rest.length = 0 := Nat.le_zero.mp hm
      simp [starLoop, filter_shorter_nil _ x h0]
    | succ m =>
      simp only [starLoop]
      congr 1
      apply flatMap_agree
      intro y hy
      have hlt : y.rest.length < x.rest.length := by
        have := (List.mem_filter.mp hy).2
        simpa using this
      exact ih m y (by omega) (by omega)

/-- The star unfolds: one more iteration that consumes something, or stop. -/
theorem run_star (a : Re) (x : Pos) :
    (Re.star a).run x =
      ((a.run x).filter (fun y => decide (y.rest.length < x.rest.length))).flatMap
        (Re.star a).run ++ [x] := by
  have key : ∀ n, x.rest.length = n → starLoop a.run n x =
      ((a.run x).filter (fun y => decide (y.rest.length < x.rest.length))).flatMap
        (Re.star a).run ++ [x] := by
    intro n hlen
    cases n with
    | zero => simp [starLoop, filter_shorter_nil _ x hlen]
    | succ n =>
      simp only [starLoop]
      congr 1
      apply flatMap_agree
      intro y hy
      have hlt : y.rest.length < x.rest.length := by
        have := (List.mem_filter.mp hy).2
        simpa using this
      show starLoop a.run n y = starLoop a.run y.rest.length y
      exact starLoop_fuel a.run n y.rest.length y (by omega) (Nat.le_refl _)
  exact key _ rfl

theorem starLoop_suffix (f : Pos → List Pos)
    (hf : ∀ x y, y ∈ f x → y.rest <:+ x.rest) :
    ∀ (n : Nat) (x y : Pos), y ∈ starLoop f n x → y.rest <:+ x.rest := by
  intro n
  induction n with
  | zero =>
    intro x y hy
    simp [starLoop] at hy
    subst hy
    exact List.suffix_refl _
  | succ n ih =>
    intro x y hy
    simp only [starLoop, List.mem_append, List.mem_flatMap, List.mem_filter,
      List.mem_singleton] at hy
    rcases hy with ⟨z, ⟨hz, _⟩, hyz⟩ | rfl
    · exact (ih z y hyz).trans (hf x z hz)
    · exact List.suffix_refl _

/-- A match ends inside the text it started in: what remains after it is a
suffix of what remained before. -/
theorem run_suffix : ∀ (re : Re) (x y : Pos), y ∈ re.run x → y.rest <:+ x.rest := by
  intro re
  induction re with
  | chr p =>
    intro x y hy
    rcases x with ⟨pv, rest⟩
    cases rest with
    | nil => simp [Re.run] at hy
    | cons c cs =>
      by_cases hp : p c = true
      · simp [Re.run, hp] at hy
        subst hy
        exact List.suffix_cons c cs
      · simp [Re.run, hp] at hy
  | bos =>
    intro x y hy
    by_cases h : x.prev.isNone = true
    · simp [Re.run, h] at hy; subst hy; exact List.suffix_refl _
    · simp [Re.run, h] at hy
  | eos =>
    intro x y hy
    by_cases h : x.rest.isEmpty = true
    · simp [Re.run, h] at hy; subst hy; exact List.suffix_refl _
    · simp [Re.run, h] at hy
  | wordB =>
    intro x y hy
    by_cases h : (isWordAt x.prev != isWordAt x.rest.head?) = true
    · simp only [Re.run, h, if_true, List.mem_singleton] at hy
      subst hy; exact List.suffix_refl _
    · simp only [Re.run, h, if_false, List.not_mem_nil, Bool.false_eq_true] at hy
  | eps =>
    intro x y hy
    simp [Re.run] at hy; subst hy; exact List.suffix_refl _
  | seq a b iha ihb =>
    intro x y hy
    simp only [Re.run, List.mem_flatMap] at hy
    rcases hy with ⟨z, hz, hyz⟩
    exact (ihb z y hyz).trans (iha x z hz)
  | alt a b iha ihb =>
    intro x y hy
    simp only [Re.run, List.mem_append] at hy
    rcases hy with h | h
    · exact iha x y h
    · exact ihb x y h
  | star a iha =>
    intro x y hy
    exact starLoop_suffix a.run iha _ x y hy

theorem exec_mem {re : Re} {x y : Pos} (h : re.exec x = some y) : y ∈ re.run x := by
  unfold Re.exec at h
  exact List.mem_of_mem_head? h

/-- The matched text followed by what remains is the text matched in. -/
theorem consumed_append {x y : Pos} (h : y.rest <:+ x.rest) :
    consumed x y ++ y.rest = x.rest := by
  rcases h with ⟨m, hm⟩
  unfold consumed
  rw [← hm]
  simp

/-- Every match of a pattern that `Re.nullable` rejects consumes a character. -/
theorem run_progress : ∀ (re : Re) (x y : Pos), re.nullable = false → y ∈ re.run x →
    y.rest.length < x.rest.length := by
  intro re
  induction re with
  | chr p =>
    intro x y _ hy
    rcases x with ⟨pv, rest⟩
    cases rest with
    | nil => simp [Re.run] at hy
    | cons c cs =>
      by_cases hp : p c = true
      · simp [Re.run, hp] at hy
        subst hy
        simp
      · simp [Re.run, hp] at hy
  | bos => intro x y h; simp [Re.nullable] at h
  | eos => intro x y h; simp [Re.nullable] at h
  | wordB => intro x y h; simp [Re.nullable] at h
  | eps => intro x y h; simp [Re.nullable] at h
  | star a _ => intro x y h; simp [Re.nullable] at h
  | seq a b iha ihb =>
    intro x y h hy
    simp only [Re.run, List.mem_flatMap] at hy
    rcases hy with ⟨z, hz, hyz⟩
    have h1 := (run_suffix a x z hz).length_le
    have h2 := (run_suffix b z y hyz).length_le
    simp only [Re.nullable, Bool.and_eq_false_iff] at h
    rcases h with h | h
    · have := iha x z h hz
      omega
    · have := ihb z y h hyz
      omega
  | alt a b iha ihb =>
    intro x y h hy
    simp only [Re.nullable, Bool.or_eq_false_iff] at h
    simp only [Re.run, List.mem_append] at hy
    rcases hy with hy | hy
    · exact iha x y h.1 hy
    · exact ihb x y h.2 hy

/-- The bound of `replaceLoop` is enough as soon as it exceeds the length of the
remaining text: a larger bound gives the same result, so the case of an
exhausted bound plays no part in `replaceAll`. -/
theorem replaceLoop_fuel (re : Re) (cb : List Char → List Char) :
    ∀ (n m : Nat) (x : Pos), x.rest.length + 1 ≤ n → x.rest.length + 1 ≤ m →
      replaceLoop re cb n x = replaceLoop re cb m x := by
  intro n
  induction n with
  | zero => intro m x hn _; omega
  | succ n ih =>
    intro m x hn hm
    cases m with
    | zero => omega
    | succ m =>
      rcases x with ⟨pv, rest⟩
      simp only [replaceLoop]
      cases hex : re.exec ⟨pv, rest⟩ with
      | some y =>
        by_cases hlt : y.rest.length < rest.length
        · simp only [hlt, if_true]
          rw [ih m y (by simp only at hn; omega) (by simp only at hm; omega)]
        · simp only [hlt, if_false]
          cases rest with
          | nil => rfl
          | cons c cs =>
            simp only
            rw [ih m ⟨some c, cs⟩ (by simpa using hn) (by simpa using hm)]
      | none =>
        cases rest with
        | nil => rfl
        | cons c cs =>
          simp only
          rw [ih m ⟨some c, cs⟩ (by simpa using hn) (by simpa using hm)]

/-- The call `replaceAll` is the replacement loop with any bound that exceeds the
length of the text. -/
theorem replaceAll_fuel (re : Re) (cb : List Char → List Char) (s : List Char) (n : Nat)
    (hn : s.length + 1 ≤ n) : replaceLoop re cb n ⟨none, s⟩ = replaceAll re cb s :=
  replaceLoop_fuel re cb n (s.length + 1) ⟨none, s⟩ hn (Nat.le_refl _)

/-- A global replacement of the characters of a class by a fixed text. -/
theorem replaceLoop_chr (p : Char → Bool) (r : List Char) :
    ∀ (s : List Char) (n : Nat) (pv : Option Char), s.length + 1 ≤ n →
      replaceLoop (.chr p) (fun _ => r) n ⟨pv, s⟩ =
        s.flatMap (fun c => if p c then r else [c]) := by
  intro s
  induction s with
  | nil =>
    intro n pv hn
    cases n with
    | zero => rfl
    | succ n => simp [replaceLoop, Re.exec, Re.run]
  | cons c cs ih =>
    intro n pv hn
    cases n with
    | zero => simp at hn
    | succ n =>
      have hn2 : cs.length + 1 ≤ n := by simpa using hn
      by_cases hp : p c = true
      · simp [replaceLoop, Re.exec, Re.run, hp, ih n (some c) hn2]
      · simp [replaceLoop, Re.exec, Re.run, hp, ih n (some c) hn2]

theorem replaceAll_chr (p : Char → Bool) (r s : List Char) :
    replaceAll (.chr p) (fun _ => r) s = s.flatMap (fun c => if p c then r else [c]) :=
  replaceLoop_chr p r s _ none (Nat.le_refl _)

theorem escape_one (c : Char) :
    (((if (c == '&') = true then "&amp;".toList else [c]).flatMap
        (fun c => if (c == '<') = true then "&lt;".toList else [c])).flatMap
        (fun c => if (c == '>') = true then "&gt;".toList else [c])) = escapeChar c := by
  by_cases h1 : c = '&'
  · subst h1; decide
  · by_cases h2 : c = '<'
    · subst h2; decide
    · by_cases h3 : c = '>'
      · subst h3; decide
      · simp [escapeChar, h1, h2, h3]

/-- The three replacements together escape each character once. -/
theorem escapeHtml_eq (t : List Char) : escapeHtml t = t.flatMap escapeChar := by
  unfold escapeHtml
  rw [replaceAll_chr, replaceAll_chr, replaceAll_chr]
  induction t with
  | nil => rfl
  | cons c t ih =>
    simp only [List.flatMap_cons, List.flatMap_append, ih]
    rw [escape_one]

/-! ## The structure of the highlighted text -/

theorem escapeChar_noAngle (c d : Char) (h : d ∈ escapeChar c) : d ≠ '<' ∧ d ≠ '>' := by
  unfold escapeChar at h
  split at h
  · simp at h; rcases h with h | h | h | h | h <;> subst h <;> decide
  · split at h
    · simp at h; rcases h with h | h | h | h <;> subst h <;> decide
    · split at h
      · simp at h; rcases h with h | h | h | h <;> subst h <;> decide
      · simp at h
        subst h
        constructor <;> assumption

/-- The escaped text has no `<` and no `>`. -/
theorem escapeHtml_noAngle (t : List Char) : ∀ d ∈ escapeHtml t, d ≠ '<' ∧ d ≠ '>' := by
  intro d hd
  rw [escapeHtml_eq, List.mem_flatMap] at hd
  rcases hd with ⟨c, _, hc⟩
  exact escapeChar_noAngle c d hc

/-- The replacement function only picks one of the five classes. -/
theorem classify_mem (m : List Char) : classify m ∈ spanClasses := by
  unfold classify spanClasses
  split
  · split <;> simp
  · split
    · simp
    · split <;> simp

theorem reToken_nullable : reToken.nullable = false := by decide

theorem spansOver_refl : ∀ s : List Char, SpansOver s s := by
  intro s
  induction s with
  | nil => exact SpansOver.nil
  | cons c s ih => exact SpansOver.text c s s ih

theorem wrapSpan_eq (m : List Char) :
    wrapSpan m = openTag (classify m) ++ m ++ closeTag := rfl

/-- The replacement loop of `syntaxHighlight` wraps disjoint non-empty stretches
of the text it scans and copies the rest. -/
theorem spansOver_loop : ∀ (n : Nat) (x : Pos),
    SpansOver x.rest (replaceLoop reToken wrapSpan n x) := by
  intro n
  induction n with
  | zero => intro x; exact spansOver_refl _
  | succ n ih =>
    intro x
    rcases x with ⟨pv, rest⟩
    simp only [replaceLoop]
    cases hex : reToken.exec ⟨pv, rest⟩ with
    | some y =>
      have hmem := exec_mem hex
      have hlt := run_progress reToken _ y reToken_nullable hmem
      have happ := consumed_append (run_suffix reToken _ y hmem)
      simp only at hlt happ
      simp only [hlt, if_true]
      have hne : consumed ⟨pv, rest⟩ y ≠ [] := by
        intro h0
        rw [h0] at happ
        simp at happ
        rw [happ] at hlt
        exact Nat.lt_irrefl _ hlt
      have key := SpansOver.span (classify (consumed ⟨pv, rest⟩ y)) (consumed ⟨pv, rest⟩ y)
        y.rest _ (classify_mem _) hne (ih y)
      rw [happ, ← wrapSpan_eq] at key
      exact key
    | none =>
      cases rest with
      | nil => exact SpansOver.nil
      | cons c cs => exact SpansOver.text c cs _ (ih ⟨some c, cs⟩)

theorem onlySpanAngles_text (m s : List Char) (hm : ∀ d ∈ m, d ≠ '<' ∧ d ≠ '>')
    (hs : OnlySpanAngles s) : OnlySpanAngles (m ++ s) := by
  induction m with
  | nil => exact hs
  | cons c m ih =>
    have hc := hm c (List.mem_cons_self _ _)
    exact OnlySpanAngles.text c (m ++ s) hc.1 hc.2
      (ih (fun d hd => hm d (List.mem_cons_of_mem _ hd)))

theorem spansOver_angles {p o : List Char} (h : SpansOver p o) :
    (∀ d ∈ p, d ≠ '<' ∧ d ≠ '>') → OnlySpanAngles o := by
  induction h with
  | nil => intro _; exact OnlySpanAngles.nil
  | text c p o _ ih =>
    intro hp
    have hc := hp c (List.mem_cons_self _ _)
    exact OnlySpanAngles.text c o hc.1 hc.2 (ih (fun d hd => hp d (List.mem_cons_of_mem _ hd)))
  | span cls m p o hcls _ _ ih =>
    intro hp
    have h1 : OnlySpanAngles o := ih (fun d hd => hp d (List.mem_append_right _ hd))
    have h2 : OnlySpanAngles (closeTag ++ o) := OnlySpanAngles.closing o h1
    have h3 : OnlySpanAngles (m ++ (closeTag ++ o)) :=
      onlySpanAngles_text m _ (fun d hd => hp d (List.mem_append_left _ hd)) h2
    have h4 := OnlySpanAngles.opening cls _ hcls h3
    simpa [List.append_assoc] using h4

theorem stripTagsAux_text (m r : List Char) (hm : ∀ d ∈ m, d ≠ '<') :
    stripTagsAux false (m ++ r) = m ++ stripTagsAux false r := by
  induction m with
  | nil => rfl
  | cons c m ih =>
    have hc := hm c (List.mem_cons_self _ _)
    simp [stripTagsAux, hc, ih (fun d hd => hm d (List.mem_cons_of_mem _ hd))]

theorem stripTagsAux_inside (m r : List Char) (hm : ∀ d ∈ m, d ≠ '>') :
    stripTagsAux true (m ++ '>' :: r) = stripTagsAux false r := by
  induction m with
  | nil => simp [stripTagsAux]
  | cons c m ih =>
    have hc := hm c (List.mem_cons_self _ _)
    simp [stripTagsAux, hc, ih (fun d hd => hm d (List.mem_cons_of_mem _ hd))]

theorem stripTagsAux_tag (m r : List Char) (hm : ∀ d ∈ m, d ≠ '>') :
    stripTagsAux false ('<' :: (m ++ '>' :: r)) = stripTagsAux false r := by
  show (if '<' = '<' then stripTagsAux true (m ++ '>' :: r) else _) = _
  rw [if_pos rfl]
  exact stripTagsAux_inside m r hm

theorem stripTagsAux_openTag (cls r : List Char) (hcls : cls ∈ spanClasses) :
    stripTagsAux false (openTag cls ++ r) = stripTagsAux false r := by
  have hshape : openTag cls ++ r =
      '<' :: (("span class=\"".toList ++ cls ++ ['"']) ++ '>' :: r) := by
    simp [openTag]
  have hin : ∀ d ∈ "span class=\"".toList ++ cls ++ ['"'], d ≠ '>' := by
    simp only [spanClasses, List.mem_cons, List.mem_singleton, List.not_mem_nil, or_false] at hcls
    rcases hcls with h | h | h | h | h <;> subst h <;> decide
  rw [hshape]
  exact stripTagsAux_tag _ r hin

theorem stripTagsAux_closeTag (r : List Char) :
    stripTagsAux false (closeTag ++ r) = stripTagsAux false r := by
  have hshape : closeTag ++ r = '<' :: ("/span".toList ++ '>' :: r) := by
    simp [closeTag]
  rw [hshape]
  exact stripTagsAux_tag "/span".toList r (by decide)

theorem spansOver_strip {p o : List Char} (h : SpansOver p o) :
    (∀ d ∈ p, d ≠ '<') → stripTags o = p := by
  unfold stripTags
  induction h with
  | nil => intro _; rfl
  | text c p o _ ih =>
    intro hp
    have hc := hp c (List.mem_cons_self _ _)
    simp [stripTagsAux, hc, ih (fun d hd => hp d (List.mem_cons_of_mem _ hd))]
  | span cls m p o hcls _ _ ih =>
    intro hp
    rw [List.append_assoc, List.append_assoc, stripTagsAux_openTag _ _ hcls,
      stripTagsAux_text m _ (fun d hd => hp d (List.mem_append_left _ hd)),
      stripTagsAux_closeTag, ih (fun d hd => hp d (List.mem_append_right _ hd))]

/-- The highlighted text is the escaped text with spans wrapped around
disjoint non-empty stretches of it. -/
theorem spansOver_highlight (t : List Char) :
    SpansOver (escapeHtml t) (syntaxHighlight t) :=
  spansOver_loop _ ⟨none, escapeHtml t⟩

/-! ## The claims about `syntaxHighlight` -/

/-- C1: for every text `t`, every `<` and every `>` of `syntaxHighlight t` belongs to
an opening tag `<span class="json-C">` of one of the five classes or to a closing
tag `</span>`; these tags are the ones `syntaxHighlight` wrapped around stretches
of the escaped text, and the escaped text has no `<` and no `>`, so none coming
from the content of `t` survives. -/
theorem syntaxHighlight_angles_only_in_spans (t : List Char) :
    OnlySpanAngles (syntaxHighlight t) ∧
      (∀ d ∈ escapeHtml t, d ≠ '<' ∧ d ≠ '>') ∧
      SpansOver (escapeHtml t) (syntaxHighlight t) :=
  ⟨spansOver_angles (spansOver_highlight t) (escapeHtml_noAngle t),
    escapeHtml_noAngle t, spansOver_highlight t⟩

set_option maxRecDepth 100000 in
/-- C2: for every text `t`, the escaped text replaces each `&`, `<`, `>` by its entity
once and keeps every other character; `syntaxHighlight t` is the escaped text with
disjoint, non-nested spans of the five classes wrapped around stretches of it, and
deleting the tags gives the escaped text back. For the compact and the 2-space text
of `{"html":"<b>&amp;</b>"}` the string value is rendered escaped inside one string
span. -/
theorem syntaxHighlight_is_escaped_text_with_spans (t : List Char) :
    escapeHtml t = t.flatMap escapeChar ∧
      SpansOver (escapeHtml t) (syntaxHighlight t) ∧
      stripTags (syntaxHighlight t) = escapeHtml t ∧
      syntaxHighlight "\x7b\"html\":\"<b>&amp;</b>\"\x7d".toList =
        ("\x7b<span class=\"json-key\">\"html\":</span>" ++
          "<span class=\"json-string\">\"&lt;b&gt;&amp;amp;&lt;/b&gt;\"</span>\x7d").toList ∧
      syntaxHighlight "\x7b\n  \"html\": \"<b>&amp;</b>\"\n\x7d".toList =
        ("\x7b\n  <span class=\"json-key\">\"html\":</span> " ++
          "<span class=\"json-string\">\"&lt;b&gt;&amp;amp;&lt;/b&gt;\"</span>\n\x7d").toList :=
  ⟨escapeHtml_eq t, spansOver_highlight t,
    spansOver_strip (spansOver_highlight t) (fun d hd => (escapeHtml_noAngle t d hd).1),
    by decide, by decide⟩

set_option maxRecDepth 100000 in
/-- C3: in the highlighted form of `{"a":1,"b":[true,null,"x"]}` the keys `"a"` and
`"b"` are in spans of class `json-key`, `1` in a span of class `json-number`, `true`
in a span of class `json-boolean`, `null` in a span of class `json-null` and `"x"` in
a span of class `json-string`; the punctuation between them is outside every span. -/
theorem syntaxHighlight_classifies_sample :
    syntaxHighlight "\x7b\"a\":1,\"b\":[true,null,\"x\"]\x7d".toList =
      ("\x7b<span class=\"json-key\">\"a\":</span><span class=\"json-number\">1</span>," ++
        "<span class=\"json-key\">\"b\":</span>[<span class=\"json-boolean\">true</span>," ++
        "<span class=\"json-null\">null</span>," ++
        "<span class=\"json-string\">\"x\"</span>]\x7d").toList := by
  decide

/-! ## String literals under the token pattern -/

theorem head_append {l m : List Pos} {z : Pos} (h : l.head? = some z) :
    (l ++ m).head? = some z := by
  cases l with
  | nil => simp at h
  | cons a l => simpa using h

theorem head_flatMap {l : List Pos} {f : Pos → List Pos} {y z : Pos}
    (h1 : l.head? = some y) (h2 : (f y).head? = some z) :
    (l.flatMap f).head? = some z := by
  cases l with
  | nil => simp at h1
  | cons a l =>
    simp at h1
    subst h1
    rw [List.flatMap_cons]
    exact head_append h2

theorem hex_alnum (c : Char) (h : isHexDigit c = true) : c.isAlphanum = true := by
  simp only [isHexDigit, Char.isDigit, Bool.or_eq_true, Bool.and_eq_true, decide_eq_true_eq] at h
  simp only [Char.isAlphanum, Char.isAlpha, Char.isUpper, Char.isLower, Char.isDigit,
    Bool.or_eq_true, Bool.and_eq_true, decide_eq_true_eq]
  simp only [ge_iff_le, UInt32.le_def, BitVec.le_def] at h ⊢
  have e1 : (UInt32.toBitVec 48).toNat = 48 := rfl
  have e2 : (UInt32.toBitVec 57).toNat = 57 := rfl
  have e3 : (UInt32.toBitVec 97).toNat = 97 := rfl
  have e4 : (UInt32.toBitVec 102).toNat = 102 := rfl
  have e5 : (UInt32.toBitVec 65).toNat = 65 := rfl
  have e6 : (UInt32.toBitVec 70).toNat = 70 := rfl
  have e7 : (UInt32.toBitVec 90).toNat = 90 := rfl
  have e8 : (UInt32.toBitVec 122).toNat = 122 := rfl
  rw [e1, e2, e3, e4, e5, e6] at h
  rw [e1, e2, e3, e5, e7, e8]
  omega

theorem body_run_quote (pv : Option Char) (r : List Char) :
    reStringBody.run ⟨pv, '"' :: r⟩ = [] := by
  simp [reStringBody, Re.run]

theorem body_run_plain (pv : Option Char) (c : Char) (r : List Char)
    (h1 : c ≠ '"') (h2 : c ≠ '\\') :
    reStringBody.run ⟨pv, c :: r⟩ = [⟨some c, r⟩] := by
  simp [reStringBody, Re.run, h1, h2]

theorem body_run_escape (pv : Option Char) (c : Char) (r : List Char) (h : c ≠ 'u') :
    reStringBody.run ⟨pv, '\\' :: c :: r⟩ = [⟨some c, r⟩] := by
  simp [reStringBody, Re.run, h]

theorem body_run_unicode (pv : Option Char) (a b c d : Char) (r : List Char)
    (ha : isHexDigit a = true) (hb : isHexDigit b = true) (hc : isHexDigit c = true)
    (hd : isHexDigit d = true) :
    reStringBody.run ⟨pv, '\\' :: 'u' :: a :: b :: c :: d :: r⟩ = [⟨some d, r⟩] := by
  simp [reStringBody, reAlnum, Re.run, hex_alnum a ha, hex_alnum b hb, hex_alnum c hc,
    hex_alnum d hd]

theorem star_stop (a : Re) (x : Pos) (h : a.run x = []) : (Re.star a).run x = [x] := by
  rw [run_star, h]
  rfl

theorem star_step (a : Re) (x y : Pos) (h : a.run x = [y])
    (hlt : y.rest.length < x.rest.length) :
    (Re.star a).run x = (Re.star a).run y ++ [x] := by
  rw [run_star, h]
  simp [hlt]

/-- The greedy scan of a string body stops at the closing quote. -/
theorem star_body_head {eb : List Char} (h : StringBody eb) :
    ∀ (pv : Option Char) (r : List Char),
      ∃ pv2, ((Re.star reStringBody).run ⟨pv, eb ++ '"' :: r⟩).head? = some ⟨pv2, '"' :: r⟩ := by
  induction h with
  | nil =>
    intro pv r
    refine ⟨pv, ?_⟩
    rw [List.nil_append, star_stop _ _ (body_run_quote pv r)]
    rfl
  | plain c t h1 h2 _ ih =>
    intro pv r
    rcases ih (some c) r with ⟨pv2, hh⟩
    refine ⟨pv2, ?_⟩
    rw [List.cons_append, star_step _ _ _ (body_run_plain pv c _ h1 h2) (by simp)]
    exact head_append hh
  | escape c t h1 _ ih =>
    intro pv r
    rcases ih (some c) r with ⟨pv2, hh⟩
    refine ⟨pv2, ?_⟩
    simp only [List.cons_append]
    rw [star_step _ _ _ (body_run_escape pv c _ h1) (by simp only [List.length_cons]; omega)]
    exact head_append hh
  | unicode a b c d t ha hb hc hd _ ih =>
    intro pv r
    rcases ih (some d) r with ⟨pv2, hh⟩
    refine ⟨pv2, ?_⟩
    simp only [List.cons_append]
    rw [star_step _ _ _ (body_run_unicode pv a b c d _ ha hb hc hd)
      (by simp only [List.length_cons]; omega)]
    exact head_append hh

/-- The scan of `\s*` before a colon stops at the colon. -/
theorem star_space_head (ws : List Char) (hws : ∀ c ∈ ws, isJsSpace c = true) :
    ∀ (pv : Option Char) (r : List Char),
      ∃ pv2, ((Re.star (.chr isJsSpace)).run ⟨pv, ws ++ ':' :: r⟩).head? =
        some ⟨pv2, ':' :: r⟩ := by
  induction ws with
  | nil =>
    intro pv r
    refine ⟨pv, ?_⟩
    have h0 : (Re.chr isJsSpace).run ⟨pv, ':' :: r⟩ = [] := by
      have : isJsSpace ':' = false := by decide
      simp [Re.run, this]
    rw [List.nil_append, star_stop _ _ h0]
    rfl
  | cons c ws ih =>
    intro pv r
    rcases ih (fun d hd => hws d (List.mem_cons_of_mem _ hd)) (some c) r with ⟨pv2, hh⟩
    refine ⟨pv2, ?_⟩
    have h1 : (Re.chr isJsSpace).run ⟨pv, c :: (ws ++ ':' :: r)⟩ = [⟨some c, ws ++ ':' :: r⟩] := by
      simp [Re.run, hws c (List.mem_cons_self _ _)]
    rw [List.cons_append, star_step _ _ _ h1 (by simp)]
    exact head_append hh

theorem run_seq (a b : Re) (x : Pos) : (Re.seq a b).run x = (a.run x).flatMap b.run := rfl

theorem run_alt (a b : Re) (x : Pos) : (Re.alt a b).run x = a.run x ++ b.run x := rfl

theorem run_chr_cons (p : Char → Bool) (pv : Option Char) (c : Char) (cs : List Char) :
    (Re.chr p).run ⟨pv, c :: cs⟩ = if p c then [⟨some c, cs⟩] else [] := rfl

theorem run_chr_nil (p : Char → Bool) (pv : Option Char) : (Re.chr p).run ⟨pv, []⟩ = [] := rfl

/-- After the body: the closing quote, and no colon when the text ends there. -/
theorem closing_string (pv : Option Char) :
    ((Re.seq (.chr (· == '"'))
        (Re.opt (.seq (.star (.chr isJsSpace)) (.chr (· == ':'))))).run ⟨pv, ['"']⟩).head? =
      some ⟨some '"', []⟩ := by
  rw [run_seq, run_chr_cons]
  simp only [beq_self_eq_true, if_true, List.flatMap_cons, List.flatMap_nil, List.append_nil]
  unfold Re.opt
  rw [run_alt, run_seq, star_stop _ _ (run_chr_nil _ _)]
  simp only [List.flatMap_cons, List.flatMap_nil, List.append_nil, run_chr_nil, List.nil_append]
  rfl

/-- After the body: the closing quote, then white space and the colon. -/
theorem closing_key (pv : Option Char) (ws : List Char)
    (hws : ∀ c ∈ ws, isJsSpace c = true) :
    ((Re.seq (.chr (· == '"'))
        (Re.opt (.seq (.star (.chr isJsSpace)) (.chr (· == ':'))))).run
          ⟨pv, '"' :: (ws ++ [':'])⟩).head? = some ⟨some ':', []⟩ := by
  rcases star_space_head ws hws (some '"') [] with ⟨pv3, hs⟩
  rw [run_seq, run_chr_cons]
  simp only [beq_self_eq_true, if_true, List.flatMap_cons, List.flatMap_nil, List.append_nil]
  unfold Re.opt
  rw [run_alt, run_seq]
  apply head_append
  refine head_flatMap hs ?_
  rw [run_chr_cons]
  rfl

/-- At a string literal that ends the text, the token pattern matches the
whole literal. -/
theorem exec_string {eb : List Char} (h : StringBody eb) (pv : Option Char) :
    reToken.exec ⟨pv, '"' :: (eb ++ ['"'])⟩ = some ⟨some '"', []⟩ := by
  rcases star_body_head h (some '"') [] with ⟨pv2, hh⟩
  unfold Re.exec reToken
  rw [run_alt]
  apply head_append
  unfold reString
  rw [run_seq, run_chr_cons]
  simp only [beq_self_eq_true, if_true, List.flatMap_cons, List.flatMap_nil, List.append_nil]
  rw [run_seq]
  exact head_flatMap hh (closing_string pv2)

/-- At a string literal followed by white space and a colon that end the text,
the token pattern matches up to the colon. -/
theorem exec_key {eb : List Char} (h : StringBody eb) (pv : Option Char)
    (ws : List Char) (hws : ∀ c ∈ ws, isJsSpace c = true) :
    reToken.exec ⟨pv, '"' :: (eb ++ '"' :: (ws ++ [':']))⟩ = some ⟨some ':', []⟩ := by
  rcases star_body_head h (some '"') (ws ++ [':']) with ⟨pv2, hh⟩
  unfold Re.exec reToken
  rw [run_alt]
  apply head_append
  unfold reString
  rw [run_seq, run_chr_cons]
  simp only [beq_self_eq_true, if_true, List.flatMap_cons, List.flatMap_nil, List.append_nil]
  rw [run_seq]
  exact head_flatMap hh (closing_key pv2 ws hws)

theorem exec_nil (pv : Option Char) : reToken.exec ⟨pv, []⟩ = none := by
  cases h : reToken.exec ⟨pv, []⟩ with
  | none => rfl
  | some y =>
    have := run_progress reToken _ y reToken_nullable (exec_mem h)
    simp at this

theorem replaceLoop_nil (cb : List Char → List Char) (n : Nat) (pv : Option Char) :
    replaceLoop reToken cb n ⟨pv, []⟩ = [] := by
  cases n with
  | zero => rfl
  | succ n => simp [replaceLoop, exec_nil]

/-- When the first match of the token pattern is the whole text, the result is
that text in one span. -/
theorem replaceAll_whole (s : List Char) (pv : Option Char) (hs : s ≠ [])
    (h : reToken.exec ⟨none, s⟩ = some ⟨pv, []⟩) :
    replaceAll reToken wrapSpan s = wrapSpan s := by
  unfold replaceAll
  have hpos : 0 < s.length := List.length_pos.mpr hs
  simp [replaceLoop, h, hpos, consumed, replaceLoop_nil]

theorem test_leading_quote (l : List Char) :
    Re.test (.seq .bos (.chr (· == '"'))) ('"' :: l) = true := by
  simp [Re.test, searchFrom, Re.run]

theorem search_trailing (e : Char) : ∀ (l : List Char) (pv : Option Char),
    searchFrom (.seq (.chr (· == ':')) .eos) pv (l ++ [e]) = (e == ':') := by
  intro l
  induction l with
  | nil =>
    intro pv
    by_cases he : e = ':'
    · subst he; simp [searchFrom, Re.run]
    · simp [searchFrom, Re.run, he]
  | cons c l ih =>
    intro pv
    by_cases hc : c = ':'
    · subst hc; simp [searchFrom, Re.run, ih]
    · simp [searchFrom, Re.run, hc, ih]

/-- A match that starts with a quote and ends with a quote is a string. -/
theorem classify_string (l : List Char) :
    classify ('"' :: (l ++ ['"'])) = "json-string".toList := by
  unfold classify
  rw [if_pos (test_leading_quote _)]
  have h : Re.test (.seq (.chr (· == ':')) .eos) ('"' :: (l ++ ['"'])) = false := by
    unfold Re.test
    rw [← List.cons_append, search_trailing]
    decide
  rw [h]
  rfl

/-- A match that starts with a quote and ends with a colon is a key. -/
theorem classify_key (l : List Char) :
    classify ('"' :: (l ++ [':'])) = "json-key".toList := by
  unfold classify
  rw [if_pos (test_leading_quote _)]
  have h : Re.test (.seq (.chr (· == ':')) .eos) ('"' :: (l ++ [':'])) = true := by
    unfold Re.test
    rw [← List.cons_append, search_trailing]
    decide
  rw [h]
  rfl

theorem escapeChar_self (c : Char) (h1 : c ≠ '&') (h2 : c ≠ '<') (h3 : c ≠ '>') :
    escapeChar c = [c] := by
  simp [escapeChar, h1, h2, h3]

theorem flatMap_escape_self (l : List Char)
    (h : ∀ c ∈ l, c ≠ '&' ∧ c ≠ '<' ∧ c ≠ '>') : l.flatMap escapeChar = l := by
  induction l with
  | nil => rfl
  | cons c l ih =>
    have hc := h c (List.mem_cons_self _ _)
    rw [List.flatMap_cons, escapeChar_self c hc.1 hc.2.1 hc.2.2,
      ih (fun d hd => h d (List.mem_cons_of_mem _ hd))]
    rfl

theorem space_not_escaped (c : Char) (h : isJsSpace c = true) :
    c ≠ '&' ∧ c ≠ '<' ∧ c ≠ '>' := by
  refine ⟨?_, ?_, ?_⟩ <;> intro hc <;> subst hc <;> revert h <;> decide

theorem hex_not_escaped (c : Char) (h : isHexDigit c = true) :
    c ≠ '&' ∧ c ≠ '<' ∧ c ≠ '>' := by
  refine ⟨?_, ?_, ?_⟩ <;> intro hc <;> subst hc <;> revert h <;> decide

theorem stringBody_plain (l r : List Char) (hl : ∀ c ∈ l, c ≠ '"' ∧ c ≠ '\\')
    (hr : StringBody r) : StringBody (l ++ r) := by
  induction l with
  | nil => exact hr
  | cons c l ih =>
    have hc := hl c (List.mem_cons_self _ _)
    exact StringBody.plain c _ hc.1 hc.2 (ih (fun d hd => hl d (List.mem_cons_of_mem _ hd)))

/-- The entity of a character starts with a character other than `u` and goes
on with characters other than the quote and the backslash. -/
theorem escapeChar_shape (c : Char) (hu : c ≠ 'u') :
    ∃ d tl, escapeChar c = d :: tl ∧ d ≠ 'u' ∧ ∀ e ∈ tl, e ≠ '"' ∧ e ≠ '\\' := by
  by_cases h1 : c = '&'
  · subst h1; exact ⟨'&', "amp;".toList, by decide, by decide, by decide⟩
  · by_cases h2 : c = '<'
    · subst h2; exact ⟨'&', "lt;".toList, by decide, by decide, by decide⟩
    · by_cases h3 : c = '>'
      · subst h3; exact ⟨'&', "gt;".toList, by decide, by decide, by decide⟩
      · exact ⟨c, [], escapeChar_self c h1 h2 h3, hu, by simp⟩

theorem escapeChar_plain (c : Char) (h1 : c ≠ '"') (h2 : c ≠ '\\') :
    ∀ e ∈ escapeChar c, e ≠ '"' ∧ e ≠ '\\' := by
  by_cases e1 : c = '&'
  · subst e1; decide
  · by_cases e2 : c = '<'
    · subst e2; decide
    · by_cases e3 : c = '>'
      · subst e3; decide
      · rw [escapeChar_self c e1 e2 e3]
        intro e he
        simp at he
        subst he
        exact ⟨h1, h2⟩

/-- Escaping keeps a string body a string body. -/
theorem stringBody_escaped {b : List Char} (h : StringBody b) :
    StringBody (b.flatMap escapeChar) := by
  induction h with
  | nil => exact StringBody.nil
  | plain c r h1 h2 _ ih =>
    rw [List.flatMap_cons]
    exact stringBody_plain _ _ (escapeChar_plain c h1 h2) ih
  | escape c r hu _ ih =>
    rcases escapeChar_shape c hu with ⟨d, tl, hd, hdu, htl⟩
    rw [List.flatMap_cons, List.flatMap_cons, hd]
    have hb : escapeChar '\\' = ['\\'] := by decide
    rw [hb]
    exact StringBody.escape d _ hdu (stringBody_plain tl _ htl ih)
  | unicode a b c d r ha hb hc hd _ ih =>
    have ea := hex_not_escaped a ha
    have eb := hex_not_escaped b hb
    have ec := hex_not_escaped c hc
    have ed := hex_not_escaped d hd
    simp only [List.flatMap_cons]
    rw [escapeChar_self a ea.1 ea.2.1 ea.2.2, escapeChar_self b eb.1 eb.2.1 eb.2.2,
      escapeChar_self c ec.1 ec.2.1 ec.2.2, escapeChar_self d ed.1 ed.2.1 ed.2.2]
    have h1 : escapeChar '\\' = ['\\'] := by decide
    have h2 : escapeChar 'u' = ['u'] := by decide
    rw [h1, h2]
    exact StringBody.unicode a b c d _ ha hb hc hd ih

theorem escapeHtml_literal (body : List Char) :
    escapeHtml (stringLiteral body) = '"' :: (body.flatMap escapeChar ++ ['"']) := by
  rw [escapeHtml_eq]
  unfold stringLiteral
  have h1 : escapeChar '"' = ['"'] := by decide
  simp [List.flatMap_cons, List.flatMap_append, h1]

theorem escapeHtml_key (body ws : List Char) (hws : ∀ c ∈ ws, isJsSpace c = true) :
    escapeHtml (stringLiteral body ++ ws ++ [':']) =
      '"' :: (body.flatMap escapeChar ++ '"' :: (ws ++ [':'])) := by
  rw [escapeHtml_eq]
  unfold stringLiteral
  have h1 : escapeChar '"' = ['"'] := by decide
  have h2 : escapeChar ':' = [':'] := by decide
  have h3 := flatMap_escape_self ws (fun c hc => space_not_escaped c (hws c hc))
  simp [List.flatMap_cons, List.flatMap_append, h1, h2, h3]

/-- C4: for every well-formed string literal, whatever its body contains,
`syntaxHighlight` of the literal is exactly one `json-string` span around the whole
escaped literal, and `syntaxHighlight` of the literal followed by white space and a
colon is exactly one `json-key` span around the whole escaped text; the escaped text
has no `<` and no `>`, so no other tag, and no span of another class, is inside. -/
theorem syntaxHighlight_string_literal_one_span (body : List Char) (hb : StringBody body) :
    (syntaxHighlight (stringLiteral body) =
        openTag "json-string".toList ++ escapeHtml (stringLiteral body) ++ closeTag ∧
      ∀ d ∈ escapeHtml (stringLiteral body), d ≠ '<' ∧ d ≠ '>') ∧
    ∀ ws : List Char, (∀ c ∈ ws, isJsSpace c = true) →
      syntaxHighlight (stringLiteral body ++ ws ++ [':']) =
          openTag "json-key".toList ++ escapeHtml (stringLiteral body ++ ws ++ [':']) ++
            closeTag ∧
        ∀ d ∈ escapeHtml (stringLiteral body ++ ws ++ [':']), d ≠ '<' ∧ d ≠ '>' := by
  have heb := stringBody_escaped hb
  refine ⟨⟨?_, escapeHtml_noAngle _⟩, fun ws hws => ⟨?_, escapeHtml_noAngle _⟩⟩
  · unfold syntaxHighlight
    rw [escapeHtml_literal,
      replaceAll_whole _ (some '"') (List.cons_ne_nil _ _) (exec_string heb none),
      wrapSpan_eq, classify_string]
  · unfold syntaxHighlight
    rw [escapeHtml_key body ws hws,
      replaceAll_whole _ (some ':') (List.cons_ne_nil _ _) (exec_key heb none ws hws),
      wrapSpan_eq]
    have hk := classify_key (body.flatMap escapeChar ++ '"' :: ws)
    simp only [List.append_assoc, List.cons_append] at hk
    rw [hk]

/-- The body `a\"{1:true,null}[<&>]é\\` is well formed. -/
theorem sample_body_wellformed :
    StringBody "a\\\"\x7b1:true,null\x7d[<&>]\\u00e9\\\\".toList := by
  repeat first
    | exact StringBody.nil
    | exact StringBody.plain _ _ (by decide) (by decide) (by assumption)
    | apply StringBody.unicode _ _ _ _ _ (by decide) (by decide) (by decide) (by decide)
    | apply StringBody.escape _ _ (by decide)
    | apply StringBody.plain _ _ (by decide) (by decide)

/-- Witness of C4: the body `a\"{1:true,null}[<&>]é\\`, alone and as a key
followed by a blank and a line break. -/
theorem syntaxHighlight_string_literal_one_span_witness :
    StringBody "a\\\"\x7b1:true,null\x7d[<&>]\\u00e9\\\\".toList ∧
      syntaxHighlight (stringLiteral "a\\\"\x7b1:true,null\x7d[<&>]\\u00e9\\\\".toList) =
        ("<span class=\"json-string\">" ++
          "\"a\\\"\x7b1:true,null\x7d[&lt;&amp;&gt;]\\u00e9\\\\\"</span>").toList ∧
      syntaxHighlight
          (stringLiteral "a\\\"\x7b1:true,null\x7d[<&>]\\u00e9\\\\".toList ++ " \n".toList ++
            [':']) =
        ("<span class=\"json-key\">" ++
          "\"a\\\"\x7b1:true,null\x7d[&lt;&amp;&gt;]\\u00e9\\\\\" \n:</span>").toList :=
  ⟨sample_body_wellformed,
    ((syntaxHighlight_string_literal_one_span _ sample_body_wellformed).1.1).trans (by decide),
    (((syntaxHighlight_string_literal_one_span _ sample_body_wellformed).2 " \n".toList
      (by decide)).1).trans (by decide)⟩

/-! ## The commands -/

theorem dropWhile_all (p : Char → Bool) (l : List Char) (h : ∀ c ∈ l, p c = true) :
    l.dropWhile p = [] := by
  induction l with
  | nil => rfl
  | cons c l ih =>
    simp [List.dropWhile, h c (List.mem_cons_self _ _),
      ih (fun d hd => h d (List.mem_cons_of_mem _ hd))]

theorem dropWhile_nil_all (p : Char → Bool) (l : List Char) (h : l.dropWhile p = []) :
    ∀ c ∈ l, p c = true := by
  induction l with
  | nil => intro c hc; simp at hc
  | cons a l ih =>
    by_cases hp : p a = true
    · simp only [List.dropWhile, hp] at h
      intro c hc
      rcases List.mem_cons.mp hc with rfl | hc
      · exact hp
      · exact ih h c hc
    · simp [List.dropWhile, hp] at h

theorem dropWhile_stable (p : Char → Bool) (l : List Char) :
    (l.dropWhile p).dropWhile p = l.dropWhile p := by
  induction l with
  | nil => rfl
  | cons a l ih =>
    by_cases hp : p a = true
    · simp only [List.dropWhile, hp, ih]
    · simp [List.dropWhile, hp]

/-- The call `trim` gives the empty text exactly on the texts made of white space. -/
theorem trim_eq_nil_iff (l : List Char) :
    trim l = [] ↔ ∀ c ∈ l, isJsSpace c = true := by
  unfold trim
  constructor
  · intro h
    have h1 : (l.dropWhile isJsSpace).reverse.dropWhile isJsSpace = [] := by
      simpa using h
    have h2 := dropWhile_nil_all _ _ h1
    have h3 : ∀ c ∈ l.dropWhile isJsSpace, isJsSpace c = true :=
      fun c hc => h2 c (List.mem_reverse.mpr hc)
    have h4 := dropWhile_all _ _ h3
    rw [dropWhile_stable] at h4
    exact dropWhile_nil_all _ _ h4
  · intro h
    rw [dropWhile_all _ _ h]
    rfl

theorem classAdd_mem (t : String) (l : List String) : t ∈ classAdd t l := by
  unfold classAdd
  split
  · assumption
  · simp

theorem classAdd_idem (t : String) (l : List String) :
    classAdd t (classAdd t l) = classAdd t l := by
  have h := classAdd_mem t l
  show (if t ∈ classAdd t l then classAdd t l else classAdd t l ++ [t]) = classAdd t l
  rw [if_pos h]

theorem classRemove_not_mem (t : String) (l : List String) : t ∉ classRemove t l := by
  unfold classRemove
  simp [List.mem_filter]

theorem classRemove_idem (t : String) (l : List String) :
    classRemove t (classRemove t l) = classRemove t l := by
  unfold classRemove
  simp [List.filter_filter]

theorem showError_twice (m : List Char) (s : Page) :
    showError m (showError m s) = showError m s := by
  simp [showError, classAdd_idem]

theorem prettify_blank {J : Type} (B : Builtins J) (s : Page)
    (h : trim s.inputValue = []) :
    prettifyJSON B s = showError "Please enter some JSON to prettify".toList s := by
  simp [prettifyJSON, h]

theorem minify_blank {J : Type} (B : Builtins J) (s : Page)
    (h : trim s.inputValue = []) :
    minifyJSON B s = showError "Please enter some JSON to minify".toList s := by
  simp [minifyJSON, h]

theorem validate_blank {J : Type} (B : Builtins J) (s : Page)
    (h : trim s.inputValue = []) :
    validateJSON B s = showError "Please enter some JSON to validate".toList s := by
  simp [validateJSON, h]

theorem prettify_error {J : Type} (B : Builtins J) (s : Page) (d : List Char)
    (hne : trim s.inputValue ≠ []) (hp : B.parse (trim s.inputValue) = .error d) :
    prettifyJSON B s = showError ("Invalid JSON: ".toList ++ d) s := by
  simp [prettifyJSON, parseJSON, hne, hp]

theorem minify_error {J : Type} (B : Builtins J) (s : Page) (d : List Char)
    (hne : trim s.inputValue ≠ []) (hp : B.parse (trim s.inputValue) = .error d) :
    minifyJSON B s = showError ("Invalid JSON: ".toList ++ d) s := by
  simp [minifyJSON, parseJSON, hne, hp]

theorem validate_error {J : Type} (B : Builtins J) (s : Page) (d : List Char)
    (hne : trim s.inputValue ≠ []) (hp : B.parse (trim s.inputValue) = .error d) :
    validateJSON B s = showError ("Invalid JSON: ".toList ++ d) s := by
  simp [validateJSON, parseJSON, hne, hp]

theorem parsed_not_blank {J : Type} (B : Builtins J) (s : Page) (v : J)
    (hp : B.parse (trim s.inputValue) = .ok v) : trim s.inputValue ≠ [] := by
  intro h
  rw [h] at hp
  exact B.parse_empty v hp

theorem prettify_ok {J : Type} (B : Builtins J) (s : Page) (v : J)
    (hp : B.parse (trim s.inputValue) = .ok v) :
    prettifyJSON B s =
      { hideError s with outputHTML := syntaxHighlight (B.stringify v 2) } := by
  simp [prettifyJSON, parseJSON, parsed_not_blank B s v hp, hp]

theorem minify_ok {J : Type} (B : Builtins J) (s : Page) (v : J)
    (hp : B.parse (trim s.inputValue) = .ok v) :
    minifyJSON B s =
      { hideError s with outputHTML := syntaxHighlight (B.stringify v 0) } := by
  simp [minifyJSON, parseJSON, parsed_not_blank B s v hp, hp]

theorem validate_ok {J : Type} (B : Builtins J) (s : Page) (v : J)
    (hp : B.parse (trim s.inputValue) = .ok v) :
    validateJSON B s =
      { hideError s with
        outputHTML := validMarker ++ syntaxHighlight (B.stringify v 2) } := by
  simp [validateJSON, parseJSON, parsed_not_blank B s v hp, hp]

/-! ## The claims about the commands -/

/-- C5: on a page whose input text is empty or made of white space only, `prettifyJSON`,
`minifyJSON` and `validateJSON` each do nothing but show their usage error: the
resulting page is `showError` of the message, whatever the built-ins are (the
parser has no part in it), and `showError` leaves the output and the input text as
they were. -/
theorem blank_input_shows_usage_error {J K : Type} (B : Builtins J) (B2 : Builtins K)
    (s : Page) (h : ∀ c ∈ s.inputValue, isJsSpace c = true) :
    (prettifyJSON B s = showError "Please enter some JSON to prettify".toList s ∧
      minifyJSON B s = showError "Please enter some JSON to minify".toList s ∧
      validateJSON B s = showError "Please enter some JSON to validate".toList s) ∧
    (prettifyJSON B s = prettifyJSON B2 s ∧ minifyJSON B s = minifyJSON B2 s ∧
      validateJSON B s = validateJSON B2 s) ∧
    ∀ m : List Char, (showError m s).outputHTML = s.outputHTML ∧
      (showError m s).inputValue = s.inputValue ∧ (showError m s).errorText = m ∧
      "show" ∈ (showError m s).errorClasses ∧ "error" ∈ (showError m s).inputClasses := by
  have ht := (trim_eq_nil_iff s.inputValue).mpr h
  refine ⟨⟨prettify_blank B s ht, minify_blank B s ht, validate_blank B s ht⟩, ⟨?_, ?_, ?_⟩, ?_⟩
  · rw [prettify_blank B s ht, prettify_blank B2 s ht]
  · rw [minify_blank B s ht, minify_blank B2 s ht]
  · rw [validate_blank B s ht, validate_blank B2 s ht]
  · intro m
    exact ⟨rfl, rfl, rfl, classAdd_mem _ _, classAdd_mem _ _⟩

/-- Witness of C5: a page with a blank, a line break and a tab typed in and an old
output. -/
theorem blank_input_shows_usage_error_witness :
    (∀ c ∈ " \n\t".toList, isJsSpace c = true) ∧
      prettifyJSON sampleBuiltins
          { inputValue := " \n\t".toList, inputClasses := [], outputHTML := "old".toList,
            errorText := [], errorClasses := [] } =
        { inputValue := " \n\t".toList, inputClasses := ["error"],
          outputHTML := "old".toList,
          errorText := "Please enter some JSON to prettify".toList,
          errorClasses := ["show"] } :=
  ⟨by decide,
    ((blank_input_shows_usage_error sampleBuiltins sampleBuiltins
      { inputValue := " \n\t".toList, inputClasses := [], outputHTML := "old".toList,
        errorText := [], errorClasses := [] } (by decide)).1.1).trans (by decide)⟩

/-- C6: on a page whose input text is not blank and on which the parser fails with the
diagnostic `d`, each of `prettifyJSON`, `minifyJSON` and `validateJSON` ends with the
page `showError` of `Invalid JSON: ` followed by `d`: the message is shown, the output
is exactly what it was (nothing cleared, nothing highlighted, no success marker
written) and the input text is unchanged. -/
theorem parse_failure_shows_error_keeps_output {J : Type} (B : Builtins J) (s : Page)
    (d : List Char) (hne : ¬ ∀ c ∈ s.inputValue, isJsSpace c = true)
    (hp : B.parse (trim s.inputValue) = .error d) :
    (prettifyJSON B s = showError ("Invalid JSON: ".toList ++ d) s ∧
      minifyJSON B s = showError ("Invalid JSON: ".toList ++ d) s ∧
      validateJSON B s = showError ("Invalid JSON: ".toList ++ d) s) ∧
    (showError ("Invalid JSON: ".toList ++ d) s).errorText = "Invalid JSON: ".toList ++ d ∧
    "show" ∈ (showError ("Invalid JSON: ".toList ++ d) s).errorClasses ∧
    (showError ("Invalid JSON: ".toList ++ d) s).outputHTML = s.outputHTML ∧
    (showError ("Invalid JSON: ".toList ++ d) s).inputValue = s.inputValue := by
  have ht : trim s.inputValue ≠ [] := fun h0 => hne ((trim_eq_nil_iff _).mp h0)
  exact ⟨⟨prettify_error B s d ht hp, minify_error B s d ht hp, validate_error B s d ht hp⟩,
    rfl, classAdd_mem _ _, rfl, rfl⟩

/-- Witness of C6: the text `{"a":}` on Validate, over an old output. -/
theorem parse_failure_shows_error_keeps_output_witness :
    (¬ ∀ c ∈ "\x7b\"a\":\x7d".toList, isJsSpace c = true) ∧
      sampleBuiltins.parse (trim "\x7b\"a\":\x7d".toList) =
        .error "Unexpected token \x7d in JSON at position 5".toList ∧
      validateJSON sampleBuiltins
          { inputValue := "\x7b\"a\":\x7d".toList, inputClasses := [],
            outputHTML := "old".toList, errorText := [], errorClasses := [] } =
        { inputValue := "\x7b\"a\":\x7d".toList, inputClasses := ["error"],
          outputHTML := "old".toList,
          errorText := "Invalid JSON: Unexpected token \x7d in JSON at position 5".toList,
          errorClasses := ["show"] } :=
  ⟨by decide, rfl,
    ((parse_failure_shows_error_keeps_output sampleBuiltins
      { inputValue := "\x7b\"a\":\x7d".toList, inputClasses := [],
        outputHTML := "old".toList, errorText := [], errorClasses := [] }
      "Unexpected token \x7d in JSON at position 5".toList (by decide) rfl).1.2.2).trans
      (by decide)⟩

/-- C7: on a page whose input text parses to `v`, `validateJSON` leaves the page that
`prettifyJSON` leaves, except that the output is the fixed marker `validMarker`
followed by the output of `prettifyJSON`, which is `syntaxHighlight` of the 2-space
form of `v`; when that form is `{\n  "x": 1\n}` the output is the marker followed by
its highlighted form. -/
theorem validate_is_marker_then_prettify {J : Type} (B : Builtins J) (s : Page) (v : J)
    (hp : B.parse (trim s.inputValue) = .ok v) :
    (prettifyJSON B s).outputHTML = syntaxHighlight (B.stringify v 2) ∧
    (validateJSON B s).outputHTML = validMarker ++ (prettifyJSON B s).outputHTML ∧
    validateJSON B s =
      { prettifyJSON B s with outputHTML := validMarker ++ (prettifyJSON B s).outputHTML } ∧
    (B.stringify v 2 = "\x7b\n  \"x\": 1\n\x7d".toList →
      (validateJSON B s).outputHTML =
        validMarker ++
          ("\x7b\n  <span class=\"json-key\">\"x\":</span> " ++
            "<span class=\"json-number\">1</span>\n\x7d").toList) := by
  rw [prettify_ok B s v hp, validate_ok B s v hp]
  refine ⟨rfl, rfl, rfl, ?_⟩
  intro hs
  have e : syntaxHighlight "\x7b\n  \"x\": 1\n\x7d".toList =
      ("\x7b\n  <span class=\"json-key\">\"x\":</span> " ++
        "<span class=\"json-number\">1</span>\n\x7d").toList := by decide
  show validMarker ++ syntaxHighlight (B.stringify v 2) = _
  rw [hs, e]

set_option maxRecDepth 100000 in
/-- Witness of C7: the text `{"x":1}` on Validate. -/
theorem validate_is_marker_then_prettify_witness :
    sampleBuiltins.parse (trim "\x7b\"x\":1\x7d".toList) = .ok () ∧
      (validateJSON sampleBuiltins (freshPage "\x7b\"x\":1\x7d".toList)).outputHTML =
        ("<span class=\"json-boolean\" style=\"color: var(--success); font-size: 1.2rem;\">" ++
          "✓ Valid JSON</span>\n\n" ++
          "\x7b\n  <span class=\"json-key\">\"x\":</span> " ++
          "<span class=\"json-number\">1</span>\n\x7d").toList :=
  ⟨rfl,
    ((validate_is_marker_then_prettify sampleBuiltins (freshPage "\x7b\"x\":1\x7d".toList) ()
      rfl).2.2.2 (by decide)).trans (by decide)⟩

/-- C8, counterexample: `parseJSON` is not free of side effects. On a freshly loaded
page, parsing the text `{"a":}` writes the error message and sets both error classes;
and after that, parsing the text `{"x":1}` removes both classes again. -/
theorem parseJSON_changes_page :
    (parseJSON sampleBuiltins "\x7b\"a\":\x7d".toList (freshPage "\x7b\"a\":\x7d".toList)).2 ≠
        freshPage "\x7b\"a\":\x7d".toList ∧
      (parseJSON sampleBuiltins "\x7b\"a\":\x7d".toList (freshPage "\x7b\"a\":\x7d".toList)).2 =
        { inputValue := "\x7b\"a\":\x7d".toList, inputClasses := ["error"], outputHTML := [],
          errorText := "Invalid JSON: Unexpected token \x7d in JSON at position 5".toList,
          errorClasses := ["show"] } ∧
      (parseJSON sampleBuiltins "\x7b\"x\":1\x7d".toList
          { inputValue := "\x7b\"x\":1\x7d".toList, inputClasses := ["error"], outputHTML := [],
            errorText := "Invalid JSON: Unexpected token \x7d in JSON at position 5".toList,
            errorClasses := ["show"] }).2 ≠
        { inputValue := "\x7b\"x\":1\x7d".toList, inputClasses := ["error"], outputHTML := [],
          errorText := "Invalid JSON: Unexpected token \x7d in JSON at position 5".toList,
          errorClasses := ["show"] } := by
  refine ⟨by decide, by decide, by decide⟩

/-- C8, amended: the result of `parseJSON` is the result of the parser on the input
text, whatever the page, and `parseJSON` leaves the input text and the output
unchanged; but it writes the error display. On success the message text is kept and
both flags are cleared: the class `show` is off the error slot and the class `error`
is off the input, every other class being kept. On failure with the diagnostic `d`
the message text is `Invalid JSON: ` followed by `d` and both flags are set: the class
`show` is on the error slot and the class `error` is on the input, added after the
classes already there. -/
theorem parseJSON_result_pure_effect_on_error_display {J : Type} (B : Builtins J)
    (input : List Char) (s t : Page) :
    ((parseJSON B input s).1 = B.parse input ∧
      (parseJSON B input s).1 = (parseJSON B input t).1 ∧
      (parseJSON B input s).2.inputValue = s.inputValue ∧
      (parseJSON B input s).2.outputHTML = s.outputHTML) ∧
    (∀ v : J, B.parse input = .ok v →
      (parseJSON B input s).2.errorText = s.errorText ∧
      "show" ∉ (parseJSON B input s).2.errorClasses ∧
      "error" ∉ (parseJSON B input s).2.inputClasses ∧
      (parseJSON B input s).2.errorClasses = s.errorClasses.filter (fun u => u != "show") ∧
      (parseJSON B input s).2.inputClasses = s.inputClasses.filter (fun u => u != "error")) ∧
    (∀ d : List Char, B.parse input = .error d →
      (parseJSON B input s).2.errorText = "Invalid JSON: ".toList ++ d ∧
      "show" ∈ (parseJSON B input s).2.errorClasses ∧
      "error" ∈ (parseJSON B input s).2.inputClasses ∧
      (parseJSON B input s).2.errorClasses =
        (if "show" ∈ s.errorClasses then s.errorClasses else s.errorClasses ++ ["show"]) ∧
      (parseJSON B input s).2.inputClasses =
        (if "error" ∈ s.inputClasses then s.inputClasses else s.inputClasses ++ ["error"])) := by
  refine ⟨?_, ?_, ?_⟩
  · unfold parseJSON
    cases B.parse input with
    | ok v => exact ⟨rfl, rfl, rfl, rfl⟩
    | error d => exact ⟨rfl, rfl, rfl, rfl⟩
  · intro v hv
    have e : (parseJSON B input s).2 = hideError s := by
      unfold parseJSON
      rw [hv]
    rw [e]
    exact ⟨rfl, classRemove_not_mem _ _, classRemove_not_mem _ _, rfl, rfl⟩
  · intro d hd
    have e : (parseJSON B input s).2 = showError ("Invalid JSON: ".toList ++ d) s := by
      unfold parseJSON
      rw [hd]
    rw [e]
    exact ⟨rfl, classAdd_mem _ _, classAdd_mem _ _, rfl, rfl⟩

/-- Witness of C8, amended: on a page that shows an error and carries another class on
each element, parsing `{"x":1}` clears the two flags and keeps the message text and
the other classes; parsing `{"a":}` on a freshly loaded page sets the message text
and the two flags. -/
theorem parseJSON_result_pure_effect_on_error_display_witness :
    (sampleBuiltins.parse "\x7b\"x\":1\x7d".toList = .ok () ∧
      (parseJSON sampleBuiltins "\x7b\"x\":1\x7d".toList
          { inputValue := "\x7b\"x\":1\x7d".toList, inputClasses := ["wide", "error"],
            outputHTML := "old".toList, errorText := "Invalid JSON: before".toList,
            errorClasses := ["banner", "show"] }).2.errorText =
        "Invalid JSON: before".toList ∧
      (parseJSON sampleBuiltins "\x7b\"x\":1\x7d".toList
          { inputValue := "\x7b\"x\":1\x7d".toList, inputClasses := ["wide", "error"],
            outputHTML := "old".toList, errorText := "Invalid JSON: before".toList,
            errorClasses := ["banner", "show"] }).2.errorClasses = ["banner"] ∧
      (parseJSON sampleBuiltins "\x7b\"x\":1\x7d".toList
          { inputValue := "\x7b\"x\":1\x7d".toList, inputClasses := ["wide", "error"],
            outputHTML := "old".toList, errorText := "Invalid JSON: before".toList,
            errorClasses := ["banner", "show"] }).2.inputClasses = ["wide"]) ∧
    (sampleBuiltins.parse "\x7b\"a\":\x7d".toList =
        .error "Unexpected token \x7d in JSON at position 5".toList ∧
      (parseJSON sampleBuiltins "\x7b\"a\":\x7d".toList
          (freshPage "\x7b\"a\":\x7d".toList)).2.errorText =
        "Invalid JSON: Unexpected token \x7d in JSON at position 5".toList ∧
      (parseJSON sampleBuiltins "\x7b\"a\":\x7d".toList
          (freshPage "\x7b\"a\":\x7d".toList)).2.errorClasses = ["show"] ∧
      (parseJSON sampleBuiltins "\x7b\"a\":\x7d".toList
          (freshPage "\x7b\"a\":\x7d".toList)).2.inputClasses = ["error"]) := by
  have hok := (parseJSON_result_pure_effect_on_error_display sampleBuiltins
    "\x7b\"x\":1\x7d".toList
    { inputValue := "\x7b\"x\":1\x7d".toList, inputClasses := ["wide", "error"],
      outputHTML := "old".toList, errorText := "Invalid JSON: before".toList,
      errorClasses := ["banner", "show"] }
    (freshPage [])).2.1 () rfl
  have hbad := (parseJSON_result_pure_effect_on_error_display sampleBuiltins
    "\x7b\"a\":\x7d".toList (freshPage "\x7b\"a\":\x7d".toList) (freshPage [])).2.2
    "Unexpected token \x7d in JSON at position 5".toList rfl
  exact ⟨⟨rfl, hok.1, hok.2.2.2.1.trans (by decide), hok.2.2.2.2.trans (by decide)⟩,
    rfl, hbad.1, hbad.2.2.2.1.trans (by decide), hbad.2.2.2.2.trans (by decide)⟩

/-- C9: for every page and every built-ins, each of `prettifyJSON`, `minifyJSON` and
`validateJSON` leaves the input text unchanged, and running it a second time changes
nothing: the page after two runs is the page after one. -/
theorem commands_keep_input_and_are_idempotent {J : Type} (B : Builtins J) (s : Page) :
    ((prettifyJSON B s).inputValue = s.inputValue ∧
      prettifyJSON B (prettifyJSON B s) = prettifyJSON B s) ∧
    ((minifyJSON B s).inputValue = s.inputValue ∧
      minifyJSON B (minifyJSON B s) = minifyJSON B s) ∧
    ((validateJSON B s).inputValue = s.inputValue ∧
      validateJSON B (validateJSON B s) = validateJSON B s) := by
  by_cases hb : trim s.inputValue = []
  · rw [prettify_blank B s hb, minify_blank B s hb, validate_blank B s hb]
    refine ⟨⟨rfl, ?_⟩, ⟨rfl, ?_⟩, ⟨rfl, ?_⟩⟩
    · rw [prettify_blank B (showError _ s) hb, showError_twice]
    · rw [minify_blank B (showError _ s) hb, showError_twice]
    · rw [validate_blank B (showError _ s) hb, showError_twice]
  · cases hp : B.parse (trim s.inputValue) with
    | error d =>
      rw [prettify_error B s d hb hp, minify_error B s d hb hp, validate_error B s d hb hp]
      refine ⟨⟨rfl, ?_⟩, ⟨rfl, ?_⟩, ⟨rfl, ?_⟩⟩
      · rw [prettify_error B (showError _ s) d hb hp, showError_twice]
      · rw [minify_error B (showError _ s) d hb hp, showError_twice]
      · rw [validate_error B (showError _ s) d hb hp, showError_twice]
    | ok v =>
      rw [prettify_ok B s v hp, minify_ok B s v hp, validate_ok B s v hp]
      refine ⟨⟨rfl, ?_⟩, ⟨rfl, ?_⟩, ⟨rfl, ?_⟩⟩
      · rw [prettify_ok B { hideError s with outputHTML := syntaxHighlight (B.stringify v 2) }
          v hp]
        simp [hideError, classRemove_idem]
      · rw [minify_ok B { hideError s with outputHTML := syntaxHighlight (B.stringify v 0) }
          v hp]
        simp [hideError, classRemove_idem]
      · rw [validate_ok B
          { hideError s with outputHTML := validMarker ++ syntaxHighlight (B.stringify v 2) }
          v hp]
        simp [hideError, classRemove_idem]

/-- C10, counterexample: after Validate on the text `{"a":}` and then `clearInput`, the
error slot still holds the message `Invalid JSON: ...`; the error text is not reset. -/
theorem clearInput_keeps_error_text :
    (clearInput (validateJSON sampleBuiltins (freshPage "\x7b\"a\":\x7d".toList))).errorText =
        "Invalid JSON: Unexpected token \x7d in JSON at position 5".toList ∧
      (clearInput (validateJSON sampleBuiltins (freshPage "\x7b\"a\":\x7d".toList))).errorText ≠
        [] := by
  refine ⟨by decide, by decide⟩

/-- C10, amended: for every page, after `clearInput` the input text is empty, the output
is empty and the error is hidden (the class `show` is off the error slot and the class
`error` is off the input); the message text in the error slot is left as it was, and
every other class is kept. -/
theorem clearInput_resets_and_hides_error (s : Page) :
    (clearInput s).inputValue = [] ∧ (clearInput s).outputHTML = [] ∧
    "show" ∉ (clearInput s).errorClasses ∧ "error" ∉ (clearInput s).inputClasses ∧
    (clearInput s).errorText = s.errorText ∧
    (clearInput s).errorClasses = s.errorClasses.filter (fun u => u != "show") ∧
    (clearInput s).inputClasses = s.inputClasses.filter (fun u => u != "error") :=
  ⟨rfl, rfl, classRemove_not_mem _ _, classRemove_not_mem _ _, rfl, rfl, rfl⟩

end JsonZen
